import Mathlib

/-!
Verification of the FlowForge workflow builder frontend.

The definitions below are a shallow embedding of the JavaScript sources:
  - nodeFactory (createNode and its default configurations),
  - WorkflowBuilder.handleSaveWorkflow (save-time validation and the
    serialized workflow payload) and the reconstruction performed when a
    saved workflow is loaded for editing,
  - ComponentConfigPanel and KnowledgeBaseNode configuration updates,
  - ChatInterface.handleSend and ChatInterface.handleDeleteSession.

React-specific plumbing that carries no data (the onUpdate callbacks, edge
presentation fields such as animation and arrow markers, toast messages) is
outside the data model.  Machine-generated node ids (clock + random suffix)
are modelled as an explicit input to createNode.  The backend GraphCompiler
is not part of the provided sources; it is modelled from the specification
where indicated.
-/

/-- Model of JavaScript `s.trim()`: leading and trailing whitespace
characters are removed. -/
def jsTrim (s : String) : String :=
  ⟨((s.data.dropWhile Char.isWhitespace).reverse.dropWhile Char.isWhitespace).reverse⟩

/-- JavaScript truthiness of an optional string: undefined and the empty
string are falsy, every other string is truthy. -/
def strTruthy : Option String → Bool
  | none => false
  | some s => !(s == "")

/-- JavaScript `a || b` on optional strings: yields `a` when `a` is truthy,
otherwise `b`. -/
def jsOr (a b : Option String) : Option String :=
  if strTruthy a then a else b

/-- Numeric value of a list of decimal digit characters, most significant
first. -/
def digitsVal (cs : List Char) : Nat :=
  cs.foldl (fun a c => a * 10 + (c.toNat - 48)) 0

/-- Core of the JavaScript parseInt model: an optional sign was consumed,
the longest leading run of digits is converted; no digits yields NaN,
modelled as `none`. -/
def jsParseIntCore (sign : Int) (cs : List Char) : Option Int :=
  let ds := cs.takeWhile Char.isDigit
  if ds.isEmpty then none else some (sign * (digitsVal ds : Int))

/-- Model of JavaScript `parseInt(s)` on decimal input: leading whitespace
is skipped, an optional sign is read, then the longest digit prefix; `none`
models NaN. -/
def jsParseInt (s : String) : Option Int :=
  match s.data.dropWhile Char.isWhitespace with
  | '-' :: rest => jsParseIntCore (-1) rest
  | '+' :: rest => jsParseIntCore 1 rest
  | cs => jsParseIntCore 1 cs

/-- The `data` object stored on a canvas node.  Fields absent from the
JavaScript object are `none`.  The onUpdate callback carried alongside
these fields is behaviour, not data, and is not modelled. -/
structure NodeData where
  type : Option String := none
  label : Option String := none
  name : Option String := none
  knowledgeBaseId : Option String := none
  embeddingModel : Option String := none
  topK : Option Int := none
  llmProvider : Option String := none
  model : Option String := none
  customPrompt : Option String := none
  useWebSearch : Option Bool := none
  webSearchProvider : Option String := none
deriving DecidableEq, Repr

/-- A canvas node: react-flow id, top-level type, position and data. -/
structure FlowNode where
  id : String
  type : Option String
  position : Int × Int
  data : NodeData
deriving DecidableEq, Repr

/-- A canvas edge; presentation fields (smoothstep, animated, marker) are
not data and are dropped from the model. -/
structure FlowEdge where
  id : String
  source : String
  target : String
deriving DecidableEq, Repr

/-- The serialized workflow payload built by handleSaveWorkflow. -/
structure WorkflowData where
  name : String
  description : String
  nodes : List FlowNode
  edges : List FlowEdge
deriving DecidableEq, Repr

/-- nodeFactory nodeTypeMap: identity on the four known component types,
absent otherwise. -/
def nodeTypeMapLookup (t : String) : Option String :=
  if t = "userQuery" ∨ t = "knowledgeBase" ∨ t = "llmEngine" ∨ t = "output"
  then some t else none

/-- nodeFactory nodeLabels table. -/
def nodeLabelsLookup (t : String) : Option String :=
  if t = "userQuery" then some "User Query"
  else if t = "knowledgeBase" then some "Knowledge Base"
  else if t = "llmEngine" then some "LLM Engine"
  else if t = "output" then some "Output"
  else none

/-- nodeFactory createNode.  The generated id (Date.now plus a random
suffix in the source) is passed in explicitly.  The switch adds the default
configuration for knowledgeBase and llmEngine nodes; note the source
defaults both provider fields to gemini. -/
def createNode (id : String) (type : String) (position : Int × Int) : FlowNode :=
  let baseData : NodeData :=
    { label := jsOr (nodeLabelsLookup type) (some type)
      type := some type }
  let base : FlowNode :=
    { id := id
      type := jsOr (nodeTypeMapLookup type) (some type)
      position := position
      data := baseData }
  match type with
  | "knowledgeBase" =>
      { base with data :=
        { baseData with
            knowledgeBaseId := some ""
            embeddingModel := some "gemini"
            topK := some 5 } }
  | "llmEngine" =>
      { base with data :=
        { baseData with
            llmProvider := some "gemini"
            model := some "gpt-3.5-turbo"
            customPrompt := some ""
            useWebSearch := some false
            webSearchProvider := some "serpapi" } }
  | _ => base

/-- KnowledgeBaseNode topK input handler: stores `parseInt(value) || 5`,
so NaN and 0 fall back to 5 and every other parsed integer is stored
verbatim, with no clamping to the 1..20 range shown on the input. -/
def kbTopKUpdate (s : String) : Int :=
  match jsParseInt s with
  | none => 5
  | some n => if n = 0 then 5 else n

/-- ComponentConfigPanel topK handler: stores `parseInt(value)` directly;
`none` models a stored NaN. -/
def panelTopKUpdate (s : String) : Option Int :=
  jsParseInt s

/-- Node-kind test used by handleSaveWorkflow: strict equality against
`node.data.type` or against the top-level `node.type`. -/
def isKind (n : FlowNode) (k : String) : Bool :=
  (n.data.type == some k) || (n.type == some k)

/-- Outcome of the save handler: the missing-name toast, the
missing-components toast, or a successful save carrying the serialized
payload that is POSTed to the backend. -/
inductive SaveResult where
  | nameError : SaveResult
  | componentsError : SaveResult
  | saved : WorkflowData → SaveResult
deriving DecidableEq, Repr

/-- Whether a save outcome accepted the workflow. -/
def isSaved : SaveResult → Bool
  | .nameError => false
  | .componentsError => false
  | .saved _ => true

/-- Serialization of one node in handleSaveWorkflow: the payload keeps the
id, position and data and stores `node.data.type || node.type` as the type. -/
def serializeNode (n : FlowNode) : FlowNode :=
  { n with type := jsOr n.data.type n.type }

/-- The workflow payload assembled by handleSaveWorkflow: name,
description, serialized nodes, and edges reduced to id, source, target. -/
def serializeWorkflow (name desc : String) (nodes : List FlowNode)
    (edges : List FlowEdge) : WorkflowData :=
  { name := name
    description := desc
    nodes := nodes.map serializeNode
    edges := edges }

/-- WorkflowBuilder.handleSaveWorkflow: rejects an empty (trimmed) name,
then requires the node list to contain at least one node of each of the
kinds userQuery, llmEngine and output, and otherwise serializes the
workflow.  The edge list plays no part in the decision. -/
def handleSaveWorkflow (name desc : String) (nodes : List FlowNode)
    (edges : List FlowEdge) : SaveResult :=
  if jsTrim name == "" then .nameError
  else if !(nodes.any (fun n => isKind n "userQuery")
      && nodes.any (fun n => isKind n "llmEngine")
      && nodes.any (fun n => isKind n "output")) then .componentsError
  else .saved (serializeWorkflow name desc nodes edges)

/-- Loading a saved workflow for editing: each node is kept as stored (the
source only re-attaches an onUpdate callback, which is outside the data
model). -/
def reconstructNodes (wf : WorkflowData) : List FlowNode :=
  wf.nodes

/-- Loading a saved workflow for editing: each edge is kept as stored (the
source only adds presentation fields). -/
def reconstructEdges (wf : WorkflowData) : List FlowEdge :=
  wf.edges

/-- The kind of a node as resolved everywhere in the frontend:
`node.data.type || node.type`. -/
def kindOf (n : FlowNode) : Option String :=
  jsOr n.data.type n.type

/-- One entry of the visible chat transcript. -/
structure ChatMessage where
  role : String
  content : String
deriving DecidableEq, Repr

/-- One entry of the sessions sidebar. -/
structure ChatSessionEntry where
  session_id : String
  created_at : String
deriving DecidableEq, Repr

/-- Body of a successful response from the chat query endpoint. -/
structure QueryResponse where
  session_id : String
  response : String
deriving DecidableEq, Repr

/-- Outcome of the chat query request: a successful response together with
the refreshed sessions list fetched afterwards, or a failure. -/
inductive QueryOutcome where
  | ok : QueryResponse → List ChatSessionEntry → QueryOutcome
  | fail : QueryOutcome
deriving DecidableEq, Repr

/-- The ChatInterface component state. -/
structure ChatState where
  messages : List ChatMessage
  input : String
  loading : Bool
  sessionId : Option String
  chatSessions : List ChatSessionEntry
deriving DecidableEq, Repr

/-- Guard at the top of handleSend: the turn is skipped when the trimmed
input is empty or a request is already in flight. -/
def sendGuard (st : ChatState) : Bool :=
  (jsTrim st.input == "") || st.loading

/-- Whether handleSend issues a network request from the given state. -/
def sendsRequest (st : ChatState) : Bool :=
  !(sendGuard st)

/-- ChatInterface.handleSend.  When the guard passes, the input is cleared,
the user message is appended optimistically and loading is set; on success
the session id from the response is stored, the assistant message is
appended and the sessions list is refreshed; on failure the optimistic
user message is removed again (slice(0, -1)). -/
def handleSend (st : ChatState) (outcome : QueryOutcome) : ChatState :=
  if sendGuard st then st
  else
    let q := jsTrim st.input
    let st1 : ChatState :=
      { st with
          input := ""
          messages := st.messages ++ [⟨"user", q⟩]
          loading := true }
    match outcome with
    | .ok r refreshed =>
        { st1 with
            sessionId := some r.session_id
            messages := st1.messages ++ [⟨"assistant", r.response⟩]
            chatSessions := refreshed
            loading := false }
    | .fail =>
        { st1 with
            messages := st1.messages.dropLast
            loading := false }

/-- ChatInterface.handleDeleteSession, successful deletion path: the
session is filtered out of the sidebar list; when it was the active
session the active id is reset and the transcript cleared. -/
def handleDeleteSession (st : ChatState) (sid : String) : ChatState :=
  let sessions2 := st.chatSessions.filter (fun s => !(s.session_id == sid))
  if st.sessionId = some sid then
    { st with chatSessions := sessions2, sessionId := none, messages := [] }
  else
    { st with chatSessions := sessions2 }

/-- Step relation of the directed graph given by an edge-pair list. -/
def edgeRel (edges : List (String × String)) (a b : String) : Prop :=
  (a, b) ∈ edges

/-- Absence of directed cycles: no node reaches itself in one or more
steps. -/
def Acyclic (edges : List (String × String)) : Prop :=
  ∀ v, ¬ Relation.TransGen (edgeRel edges) v v

/-- A node is ready (in-degree zero) relative to the remaining nodes: no
edge into it starts at a remaining node. -/
def ready (rem : List String) (edges : List (String × String)) (v : String) : Bool :=
  edges.all fun e => !(decide (e.2 = v) && decide (e.1 ∈ rem))

/-- Least element of a list of ids, `none` for the empty list. -/
def minId : List String → Option String
  | [] => none
  | x :: xs =>
    match minId xs with
    | none => some x
    | some m => some (if x ≤ m then x else m)

/-- Modelled from the spec: the loop of the backend GraphCompiler (§4.2,
not part of the provided sources) — Kahn's algorithm where among the nodes
of in-degree zero the least id is always removed next.  Fuel bounds the
number of rounds. -/
def kahnAux (edges : List (String × String)) : Nat → List String → Option (List String)
  | 0, rem => if rem.isEmpty then some [] else none
  | fuel + 1, rem =>
    if rem.isEmpty then some []
    else
      match minId (rem.filter (ready rem edges)) with
      | none => none
      | some v => (kahnAux edges fuel (rem.erase v)).map (fun order => v :: order)

/-- Modelled from the spec: the backend GraphCompiler contract (§4.2, not
part of the provided sources).  Produces the deterministic execution order
of the node ids, or `none` when no progress is possible (a cycle). -/
def compile (ids : List String) (edges : List (String × String)) : Option (List String) :=
  kahnAux edges ids.length ids

/-- Edge pairs of a workflow edge list. -/
def workflowEdgePairs (edges : List FlowEdge) : List (String × String) :=
  edges.map fun e => (e.source, e.target)

/-- Modelled from the spec: compilation of a whole workflow (§4.2) — the
backend orders the node ids along the edges. -/
def compileWorkflow (nodes : List FlowNode) (edges : List FlowEdge) : Option (List String) :=
  compile (nodes.map FlowNode.id) (workflowEdgePairs edges)

/-- Concrete workflow with two UserQuery nodes plus one LLMEngine and one
Output node. -/
def nodesDupUQ : List FlowNode :=
  [createNode "a" "userQuery" (0, 0), createNode "b" "userQuery" (1, 0),
   createNode "c" "llmEngine" (2, 0), createNode "d" "output" (3, 0)]

/-- Concrete workflow with exactly one UserQuery and one Output node and no
LLMEngine node. -/
def nodesNoLLM : List FlowNode :=
  [createNode "a" "userQuery" (0, 0), createNode "b" "output" (1, 0)]

/-- Concrete linear workflow with one node of each required kind. -/
def nodesULO : List FlowNode :=
  [createNode "u" "userQuery" (0, 0), createNode "l" "llmEngine" (1, 0),
   createNode "o" "output" (2, 0)]

/-- Concrete edge list containing the directed cycle l → o → l. -/
def edgesCyc : List FlowEdge :=
  [⟨"e1", "u", "l"⟩, ⟨"e2", "l", "o"⟩, ⟨"e3", "o", "l"⟩]

/-- Concrete linear edge list u → l → o. -/
def edgesLin : List FlowEdge :=
  [⟨"e1", "u", "l"⟩, ⟨"e2", "l", "o"⟩]

/-- Concrete node-id list for the compiler witness. -/
def idsW : List String := ["u", "l", "o"]

/-- Concrete edge-pair list for the compiler witness. -/
def edgePairsW : List (String × String) := [("u", "l"), ("l", "o")]

/-- Rank function witnessing acyclicity of the linear witness graph. -/
def rankW (v : String) : Nat :=
  if v = "u" then 0 else if v = "l" then 1 else 2

/-- Concrete chat state with a pending input and two stored sessions. -/
def chatStW : ChatState :=
  { messages := [⟨"user", "hi"⟩, ⟨"assistant", "hello"⟩]
    input := "  next question  "
    loading := false
    sessionId := some "s1"
    chatSessions := [⟨"s1", "t1"⟩, ⟨"s2", "t2"⟩] }

/-- Concrete chat state whose input is whitespace only. -/
def chatStBlank : ChatState :=
  { messages := [⟨"user", "hi"⟩]
    input := "   "
    loading := false
    sessionId := none
    chatSessions := [] }

lemma isSaved_nameError : isSaved SaveResult.nameError = false := rfl

lemma isSaved_componentsError : isSaved SaveResult.componentsError = false := rfl

lemma isSaved_saved (wf : WorkflowData) : isSaved (SaveResult.saved wf) = true := rfl

lemma mem_filter_ne_session (sessions : List ChatSessionEntry) (sid : String) :
    ∀ s ∈ sessions.filter (fun s => !(s.session_id == sid)), s.session_id ≠ sid := by
  intro s hs
  have hp := List.of_mem_filter hs
  simpa using hp

lemma serializeNode_eq_self (n : FlowNode) (h : n.data.type = n.type) :
    serializeNode n = n := by
  simp [serializeNode, jsOr, h]

/-- Claim C1 (counterexample): a workflow containing two UserQuery nodes
(together with an LLMEngine and an Output node) is accepted by the
pre-execution validation instead of being rejected with a
missing-or-duplicate-entrypoint error. -/
theorem duplicate_userQuery_accepted :
    nodesDupUQ.countP (fun n => isKind n "userQuery") = 2 ∧
    isSaved (handleSaveWorkflow "w" "" nodesDupUQ []) = true :=
  ⟨rfl, rfl⟩

/-- Claim C1 (amended): save-time validation accepts any workflow whose
trimmed name is nonempty and whose node list contains at least one node of
each of the kinds userQuery, llmEngine and output; node multiplicity is
never inspected, so duplicate UserQuery nodes are accepted. -/
theorem save_accepts_duplicate_userQuery (name desc : String)
    (nodes : List FlowNode) (edges : List FlowEdge)
    (hname : jsTrim name ≠ "")
    (huq : nodes.any (fun n => isKind n "userQuery") = true)
    (hllm : nodes.any (fun n => isKind n "llmEngine") = true)
    (hout : nodes.any (fun n => isKind n "output") = true) :
    handleSaveWorkflow name desc nodes edges
      = .saved (serializeWorkflow name desc nodes edges) := by
  simp [handleSaveWorkflow, hname, huq, hllm, hout]

/-- Witness for the amended C1 theorem at the concrete duplicate-UserQuery
workflow. -/
theorem save_accepts_duplicate_userQuery_witness :
    handleSaveWorkflow "w" "" nodesDupUQ []
      = .saved (serializeWorkflow "w" "" nodesDupUQ []) :=
  save_accepts_duplicate_userQuery "w" "" nodesDupUQ [] (by decide) rfl rfl rfl

/-- Claim C2 (counterexample): a workflow with exactly one UserQuery node
and exactly one Output node but no LLMEngine node is rejected by the
save-time validation with the missing-components error, not accepted. -/
theorem missing_llmEngine_rejected :
    nodesNoLLM.countP (fun n => isKind n "userQuery") = 1 ∧
    nodesNoLLM.countP (fun n => isKind n "output") = 1 ∧
    nodesNoLLM.any (fun n => isKind n "llmEngine") = false ∧
    handleSaveWorkflow "w" "" nodesNoLLM edgesLin = SaveResult.componentsError :=
  ⟨rfl, rfl, rfl, rfl⟩

/-- Claim C2 (amended): the save-time validation does require an LLMEngine
node; every workflow whose node list contains no llmEngine-kind node is
refused, so a missing engine is reported at validation time, not at run
time. -/
theorem save_requires_llmEngine (name desc : String)
    (nodes : List FlowNode) (edges : List FlowEdge)
    (h : nodes.any (fun n => isKind n "llmEngine") = false) :
    isSaved (handleSaveWorkflow name desc nodes edges) = false := by
  simp [handleSaveWorkflow, h, apply_ite isSaved, isSaved_nameError,
    isSaved_componentsError, isSaved_saved]

/-- Witness for the amended C2 theorem at the concrete engine-less
workflow. -/
theorem save_requires_llmEngine_witness :
    isSaved (handleSaveWorkflow "w" "" nodesNoLLM edgesLin) = false :=
  save_requires_llmEngine "w" "" nodesNoLLM edgesLin rfl

/-- Claim C3 (counterexample): a workflow whose edge set contains the
directed cycle l → o → l passes the pre-execution validation; no
cycle-detected error exists. -/
theorem cyclic_workflow_accepted :
    (∃ v, Relation.TransGen (edgeRel (workflowEdgePairs edgesCyc)) v v) ∧
    isSaved (handleSaveWorkflow "w" "" nodesULO edgesCyc) = true := by
  refine ⟨⟨"l", ?_⟩, rfl⟩
  have h1 : edgeRel (workflowEdgePairs edgesCyc) "l" "o" := by
    unfold edgeRel workflowEdgePairs edgesCyc
    decide
  have h2 : edgeRel (workflowEdgePairs edgesCyc) "o" "l" := by
    unfold edgeRel workflowEdgePairs edgesCyc
    decide
  exact Relation.TransGen.head h1 (Relation.TransGen.single h2)

/-- Claim C3 (amended): the save-time validation never inspects the edge
list — the accept/reject decision is identical for any two edge lists on
the same nodes, so in particular workflows containing cycles are accepted
whenever the node-kind requirements are met. -/
theorem save_decision_ignores_edges (name desc : String) (nodes : List FlowNode)
    (edges1 edges2 : List FlowEdge) :
    isSaved (handleSaveWorkflow name desc nodes edges1)
      = isSaved (handleSaveWorkflow name desc nodes edges2) := by
  simp [handleSaveWorkflow, apply_ite isSaved, isSaved_nameError,
    isSaved_componentsError, isSaved_saved]

/-- Claim C4 (counterexample): a newly created LLMEngine node has
llmProvider gemini, not openai. -/
theorem llmProvider_default_not_openai :
    (createNode "n1" "llmEngine" (0, 0)).data.llmProvider = some "gemini" ∧
    (createNode "n1" "llmEngine" (0, 0)).data.llmProvider ≠ some "openai" := by
  exact ⟨rfl, by decide⟩

/-- Claim C4 (amended): for every newly created LLMEngine node the
llmProvider configuration field defaults to gemini. -/
theorem llmProvider_defaults_gemini (id : String) (pos : Int × Int) :
    (createNode id "llmEngine" pos).data.llmProvider = some "gemini" :=
  rfl

/-- Claim C5 (counterexample): the topK configuration handlers accept
values outside the range 1..20 without clamping: entering 25 stores 25 in
the canvas-node handler and entering 999 stores 999 in the config panel. -/
theorem topK_value_outside_range_accepted :
    kbTopKUpdate "25" = 25 ∧ ¬(kbTopKUpdate "25" ≤ 20) ∧
    panelTopKUpdate "999" = some 999 := by
  refine ⟨rfl, ?_, rfl⟩
  decide

/-- Claim C5 (amended): topK defaults to 5 on a newly created
KnowledgeBase node, but configured values are not clamped to 1..20: the
canvas-node handler stores every nonzero parsed integer verbatim (0 and
unparsable input fall back to 5), and the 1..20 bounds exist only as HTML
attributes on the input element. -/
theorem topK_default_and_unclamped (id : String) (pos : Int × Int) :
    (createNode id "knowledgeBase" pos).data.topK = some 5 ∧
    ∀ s n, jsParseInt s = some n → n ≠ 0 → kbTopKUpdate s = n := by
  refine ⟨rfl, ?_⟩
  intro s n h hn
  unfold kbTopKUpdate
  rw [h]
  simp [hn]

/-- Witness for the amended C5 theorem: default 5, and the out-of-range
value 25 is stored unchanged. -/
theorem topK_default_and_unclamped_witness :
    (createNode "k1" "knowledgeBase" (0, 0)).data.topK = some 5 ∧
    kbTopKUpdate "25" = 25 :=
  ⟨(topK_default_and_unclamped "k1" (0, 0)).1,
   (topK_default_and_unclamped "k1" (0, 0)).2 "25" 25 rfl (by decide)⟩

/-- Claim C6: a chat turn is atomic for the visible history — when the
guard passes, a successful request appends exactly the user entry followed
by the assistant entry and installs the returned session id, while a
failed request leaves the message list and the session id exactly as they
were before the turn. -/
theorem handleSend_atomic (st : ChatState) (outcome : QueryOutcome)
    (h : sendGuard st = false) :
    (∀ r refreshed, outcome = .ok r refreshed →
      (handleSend st outcome).messages
        = st.messages ++ [⟨"user", jsTrim st.input⟩, ⟨"assistant", r.response⟩] ∧
      (handleSend st outcome).sessionId = some r.session_id) ∧
    (outcome = .fail →
      (handleSend st outcome).messages = st.messages ∧
      (handleSend st outcome).sessionId = st.sessionId) := by
  constructor
  · rintro r refreshed rfl
    constructor
    · simp [handleSend, h]
    · simp [handleSend, h]
  · rintro rfl
    constructor
    · simp [handleSend, h, List.dropLast_concat]
    · simp [handleSend, h]

/-- Witness for the C6 theorem at a concrete state: a success appends the
two entries, a failure restores the original transcript. -/
theorem handleSend_atomic_witness :
    sendGuard chatStW = false ∧
    (handleSend chatStW (QueryOutcome.ok ⟨"s9", "resp"⟩ [])).messages
      = chatStW.messages ++ [⟨"user", "next question"⟩, ⟨"assistant", "resp"⟩] ∧
    (handleSend chatStW (QueryOutcome.ok ⟨"s9", "resp"⟩ [])).sessionId = some "s9" ∧
    (handleSend chatStW QueryOutcome.fail).messages = chatStW.messages ∧
    (handleSend chatStW QueryOutcome.fail).sessionId = chatStW.sessionId := by
  have hok := (handleSend_atomic chatStW (QueryOutcome.ok ⟨"s9", "resp"⟩ []) rfl).1
    ⟨"s9", "resp"⟩ [] rfl
  have hfail := (handleSend_atomic chatStW QueryOutcome.fail rfl).2 rfl
  exact ⟨rfl, hok.1, hok.2, hfail.1, hfail.2⟩

/-- Claim C9: when the trimmed input is empty or a request is in flight,
handleSend performs no request and leaves the whole chat state unchanged. -/
theorem handleSend_guard_frame (st : ChatState) (outcome : QueryOutcome)
    (h : sendGuard st = true) :
    handleSend st outcome = st ∧ sendsRequest st = false := by
  constructor
  · simp [handleSend, h]
  · simp [sendsRequest, h]

/-- Witness for the C9 theorem at a concrete whitespace-input state. -/
theorem handleSend_guard_frame_witness :
    sendGuard chatStBlank = true ∧
    handleSend chatStBlank QueryOutcome.fail = chatStBlank ∧
    sendsRequest chatStBlank = false :=
  ⟨rfl, (handleSend_guard_frame chatStBlank QueryOutcome.fail rfl).1,
    (handleSend_guard_frame chatStBlank QueryOutcome.fail rfl).2⟩

/-- Claim C10: after a successful deletion of session sid, no session with
that id remains in the sidebar list; if sid was active, the active id is
cleared and the transcript emptied, and otherwise both are untouched. -/
theorem handleDeleteSession_spec (st : ChatState) (sid : String) :
    (∀ s ∈ (handleDeleteSession st sid).chatSessions, s.session_id ≠ sid) ∧
    (st.sessionId = some sid →
      (handleDeleteSession st sid).sessionId = none ∧
      (handleDeleteSession st sid).messages = []) ∧
    (st.sessionId ≠ some sid →
      (handleDeleteSession st sid).sessionId = st.sessionId ∧
      (handleDeleteSession st sid).messages = st.messages) := by
  by_cases hc : st.sessionId = some sid
  · refine ⟨?_, fun _ => ⟨?_, ?_⟩, fun hne => absurd hc hne⟩ <;>
      simp [handleDeleteSession, hc]
  · refine ⟨?_, fun heq => absurd heq hc, fun _ => ⟨?_, ?_⟩⟩ <;>
      simp [handleDeleteSession, hc]

/-- Witness for the C10 theorem: deleting the active session s1 removes it
from the list, clears the active id and empties the transcript. -/
theorem handleDeleteSession_spec_witness :
    (handleDeleteSession chatStW "s1").chatSessions = [⟨"s2", "t2"⟩] ∧
    (handleDeleteSession chatStW "s1").sessionId = none ∧
    (handleDeleteSession chatStW "s1").messages = [] :=
  ⟨rfl, ((handleDeleteSession_spec chatStW "s1").2.1 rfl).1,
    ((handleDeleteSession_spec chatStW "s1").2.1 rfl).2⟩

lemma minId_cons_ne_none (x : String) (xs : List String) : minId (x :: xs) ≠ none := by
  unfold minId
  cases minId xs <;> simp

lemma minId_eq_none {l : List String} : minId l = none ↔ l = [] := by
  cases l with
  | nil => simp [minId]
  | cons x xs =>
    constructor
    · intro h
      exact absurd h (minId_cons_ne_none x xs)
    · intro h
      simp at h

lemma minId_mem {l : List String} {m : String} (h : minId l = some m) : m ∈ l := by
  induction l generalizing m with
  | nil => simp [minId] at h
  | cons x xs ih =>
    unfold minId at h
    cases hx : minId xs with
    | none =>
      rw [hx] at h
      injection h with h
      subst h
      exact List.mem_cons_self x xs
    | some m2 =>
      rw [hx] at h
      injection h with h
      by_cases hle : x ≤ m2
      · rw [if_pos hle] at h
        subst h
        exact List.mem_cons_self x xs
      · rw [if_neg hle] at h
        subst h
        exact List.mem_cons_of_mem x (ih hx)

lemma minId_le {l : List String} {m : String} (h : minId l = some m) :
    ∀ x ∈ l, m ≤ x := by
  induction l generalizing m with
  | nil => simp [minId] at h
  | cons x xs ih =>
    unfold minId at h
    cases hx : minId xs with
    | none =>
      rw [hx] at h
      injection h with h
      intro y hy
      rcases List.mem_cons.mp hy with heq | hy2
      · exact le_of_eq (by rw [← h, heq])
      · rw [minId_eq_none.mp hx] at hy2
        simp at hy2
    | some m2 =>
      rw [hx] at h
      injection h with h
      intro y hy
      rw [← h]
      rcases List.mem_cons.mp hy with heq | hy2
      · rw [heq]
        by_cases hle : x ≤ m2
        · exact le_of_eq (if_pos hle)
        · exact le_trans (le_of_eq (if_neg hle)) (le_of_not_le hle)
      · have hm2 := ih hx y hy2
        by_cases hle : x ≤ m2
        · exact le_trans (le_of_eq (if_pos hle)) (le_trans hle hm2)
        · exact le_trans (le_of_eq (if_neg hle)) hm2

lemma minId_perm {l l2 : List String} (h : l.Perm l2) : minId l = minId l2 := by
  cases hl : minId l with
  | none =>
    have h1 := minId_eq_none.mp hl
    subst h1
    have h2 : l2 = [] := h.symm.eq_nil
    subst h2
    rfl
  | some m =>
    cases hl2 : minId l2 with
    | none =>
      have h2 := minId_eq_none.mp hl2
      subst h2
      have h1 : l = [] := h.eq_nil
      subst h1
      simp [minId] at hl
    | some m2 =>
      have ha : m ≤ m2 := minId_le hl m2 (h.mem_iff.mpr (minId_mem hl2))
      have hb : m2 ≤ m := minId_le hl2 m (h.mem_iff.mp (minId_mem hl))
      rw [le_antisymm ha hb]

lemma ready_iff {rem : List String} {edges : List (String × String)} {v : String} :
    ready rem edges v = true ↔ ∀ e ∈ edges, e.2 = v → e.1 ∉ rem := by
  simp [ready]
  constructor
  · intro h a b hab hb ha
    rcases h a b hab with h1 | h2
    · exact h1 hb
    · exact h2 ha
  · intro h a b hab
    by_cases hb : b = v
    · exact Or.inr (h a b hab hb)
    · exact Or.inl hb

lemma ready_eq_false {rem : List String} {edges : List (String × String)} {v : String} :
    ready rem edges v = false ↔ ∃ e ∈ edges, e.2 = v ∧ e.1 ∈ rem := by
  constructor
  · intro h
    have h2 : ¬ (ready rem edges v = true) := by simp [h]
    rw [ready_iff] at h2
    push_neg at h2
    obtain ⟨e, he, hv, hmem⟩ := h2
    exact ⟨e, he, hv, hmem⟩
  · rintro ⟨e, he, hv, hmem⟩
    cases hrdy : ready rem edges v with
    | false => rfl
    | true => exact absurd hmem (ready_iff.mp hrdy e he hv)

lemma ready_congr_perm {rem rem2 : List String} (edges : List (String × String))
    (v : String) (h : rem.Perm rem2) : ready rem edges v = ready rem2 edges v := by
  unfold ready
  congr 1
  funext e
  rw [decide_eq_decide.mpr (h.mem_iff (a := e.1))]

lemma isEmpty_congr_perm {l l2 : List String} (h : l.Perm l2) :
    l.isEmpty = l2.isEmpty := by
  rw [Bool.eq_iff_iff]
  simp only [List.isEmpty_iff]
  constructor
  · intro hl
    subst hl
    exact h.symm.eq_nil
  · intro hl
    subst hl
    exact h.eq_nil

lemma kahnAux_perm_output (edges : List (String × String)) :
    ∀ fuel rem ord, kahnAux edges fuel rem = some ord → ord.Perm rem := by
  intro fuel
  induction fuel with
  | zero =>
    intro rem ord h
    simp only [kahnAux] at h
    split at h
    · rename_i hcond
      rw [List.isEmpty_iff.mp hcond]
      injection h with h
      rw [← h]
    · simp at h
  | succ fuel ih =>
    intro rem ord h
    simp only [kahnAux] at h
    split at h
    · rename_i hcond
      rw [List.isEmpty_iff.mp hcond]
      injection h with h
      rw [← h]
    · cases hmin : minId (rem.filter (ready rem edges)) with
      | none =>
        rw [hmin] at h
        simp at h
      | some v =>
        rw [hmin] at h
        obtain ⟨ord2, hrec, hord⟩ := Option.map_eq_some'.mp h
        have hv : v ∈ rem := List.mem_of_mem_filter (minId_mem hmin)
        rw [← hord]
        exact ((ih (rem.erase v) ord2 hrec).cons v).trans (List.perm_cons_erase hv).symm

lemma kahnAux_topo (edges : List (String × String)) :
    ∀ fuel rem ord, kahnAux edges fuel rem = some ord →
      ∀ u v, (u, v) ∈ edges → u ∈ rem → v ∈ rem → [u, v].Sublist ord := by
  intro fuel
  induction fuel with
  | zero =>
    intro rem ord h u v he hu hv
    simp only [kahnAux] at h
    split at h
    · rename_i hcond
      rw [List.isEmpty_iff.mp hcond] at hu
      simp at hu
    · simp at h
  | succ fuel ih =>
    intro rem ord h u v he hu hv
    simp only [kahnAux] at h
    split at h
    · rename_i hcond
      rw [List.isEmpty_iff.mp hcond] at hu
      simp at hu
    · cases hmin : minId (rem.filter (ready rem edges)) with
      | none =>
        rw [hmin] at h
        simp at h
      | some w =>
        rw [hmin] at h
        obtain ⟨ord2, hrec, hord⟩ := Option.map_eq_some'.mp h
        have hwfil := minId_mem hmin
        have hw : w ∈ rem := List.mem_of_mem_filter hwfil
        have hwready : ready rem edges w = true := (List.mem_filter.mp hwfil).2
        have hvne : v ≠ w := by
          intro heq
          exact (ready_iff.mp hwready (u, v) he heq) hu
        rw [← hord]
        by_cases hueq : u = w
        · subst hueq
          have hvrem : v ∈ rem.erase u := (List.mem_erase_of_ne hvne).mpr hv
          have hperm := kahnAux_perm_output edges fuel (rem.erase u) ord2 hrec
          have hvord : v ∈ ord2 := hperm.mem_iff.mpr hvrem
          exact List.Sublist.cons₂ u (List.singleton_sublist.mpr hvord)
        · have hurem : u ∈ rem.erase w := (List.mem_erase_of_ne hueq).mpr hu
          have hvrem : v ∈ rem.erase w := (List.mem_erase_of_ne hvne).mpr hv
          exact (ih (rem.erase w) ord2 hrec u v he hurem hvrem).cons w

lemma kahnAux_congr_perm (edges : List (String × String)) :
    ∀ fuel rem rem2, rem.Perm rem2 →
      kahnAux edges fuel rem = kahnAux edges fuel rem2 := by
  intro fuel
  induction fuel with
  | zero =>
    intro rem rem2 h
    simp only [kahnAux]
    rw [isEmpty_congr_perm h]
  | succ fuel ih =>
    intro rem rem2 h
    simp only [kahnAux]
    rw [isEmpty_congr_perm h]
    by_cases hcond : rem2.isEmpty = true
    · rw [if_pos hcond, if_pos hcond]
    · rw [if_neg hcond, if_neg hcond]
      have hfil : (rem.filter (ready rem edges)).Perm (rem2.filter (ready rem2 edges)) := by
        have h1 : rem.filter (ready rem edges) = rem.filter (ready rem2 edges) :=
          List.filter_congr (fun x _ => ready_congr_perm edges x h)
        rw [h1]
        exact h.filter (ready rem2 edges)
      rw [minId_perm hfil]
      cases minId (rem2.filter (ready rem2 edges)) with
      | none => rfl
      | some v =>
        dsimp only
        rw [ih (rem.erase v) (rem2.erase v) (h.erase v)]

lemma exists_cycle_of_all_blocked (edges : List (String × String)) (rem : List String)
    (hne : rem ≠ [])
    (h : ∀ v ∈ rem, ∃ e ∈ edges, e.2 = v ∧ e.1 ∈ rem) :
    ∃ v, Relation.TransGen (edgeRel edges) v v := by
  classical
  obtain ⟨v0, hv0⟩ := List.exists_mem_of_ne_nil rem hne
  let s : Finset String := rem.toFinset
  have hv0s : v0 ∈ s := List.mem_toFinset.mpr hv0
  have hstep : ∀ x : {a // a ∈ s}, ∃ y : {a // a ∈ s}, (y.1, x.1) ∈ edges := by
    intro x
    obtain ⟨e, he, h2, h1⟩ := h x.1 (List.mem_toFinset.mp x.2)
    refine ⟨⟨e.1, List.mem_toFinset.mpr h1⟩, ?_⟩
    rw [← h2, Prod.mk.eta]
    exact he
  choose pred hpred using hstep
  let g : Nat → {a // a ∈ s} := fun n => pred^[n] ⟨v0, hv0s⟩
  have hchain : ∀ m n : Nat, m < n →
      Relation.TransGen (edgeRel edges) (g n).1 (g m).1 := by
    intro m n hmn
    induction n with
    | zero => omega
    | succ k ihk =>
      have hstep1 : edgeRel edges (g (k + 1)).1 (g k).1 := by
        have hit : g (k + 1) = pred (g k) := Function.iterate_succ_apply' pred k _
        rw [hit]
        exact hpred (g k)
      rcases Nat.lt_succ_iff_lt_or_eq.mp hmn with hlt | heq
      · exact Relation.TransGen.head hstep1 (ihk hlt)
      · subst heq
        exact Relation.TransGen.single hstep1
  have hcardlt : Fintype.card {a // a ∈ s} < Fintype.card (Fin (s.card + 1)) := by
    rw [Fintype.card_coe, Fintype.card_fin]
    omega
  obtain ⟨i, j, hij, hgij⟩ :=
    Fintype.exists_ne_map_eq_of_card_lt (fun i : Fin (s.card + 1) => g i.1) hcardlt
  have hne2 : i.1 ≠ j.1 := fun hh => hij (Fin.ext hh)
  rcases Nat.lt_or_ge i.1 j.1 with hlt | hge
  · refine ⟨(g i.1).1, ?_⟩
    have hT := hchain i.1 j.1 hlt
    rw [← hgij] at hT
    exact hT
  · have hlt2 : j.1 < i.1 := lt_of_le_of_ne hge (Ne.symm hne2)
    refine ⟨(g j.1).1, ?_⟩
    have hT := hchain j.1 i.1 hlt2
    rw [hgij] at hT
    exact hT

lemma kahnAux_total (edges : List (String × String)) (hac : Acyclic edges) :
    ∀ fuel rem, rem.length ≤ fuel → ∃ ord, kahnAux edges fuel rem = some ord := by
  intro fuel
  induction fuel with
  | zero =>
    intro rem hlen
    have h0 : rem = [] := List.length_eq_zero.mp (Nat.le_zero.mp hlen)
    subst h0
    exact ⟨[], rfl⟩
  | succ fuel ih =>
    intro rem hlen
    by_cases hemp : rem.isEmpty = true
    · exact ⟨[], by simp [kahnAux, hemp]⟩
    · have hne : rem ≠ [] := by
        intro hh
        subst hh
        simp at hemp
      have hfil : rem.filter (ready rem edges) ≠ [] := by
        intro hnil
        have hblocked : ∀ v ∈ rem, ∃ e ∈ edges, e.2 = v ∧ e.1 ∈ rem := by
          intro v hv
          have hnr : ready rem edges v = false := by
            have hnt := List.filter_eq_nil_iff.mp hnil v hv
            simpa using hnt
          exact ready_eq_false.mp hnr
        obtain ⟨v, hcyc⟩ := exists_cycle_of_all_blocked edges rem hne hblocked
        exact hac v hcyc
      cases hmin : minId (rem.filter (ready rem edges)) with
      | none => exact absurd (minId_eq_none.mp hmin) hfil
      | some v =>
        have hvrem : v ∈ rem := List.mem_of_mem_filter (minId_mem hmin)
        have hlen2 : (rem.erase v).length ≤ fuel := by
          rw [List.length_erase_of_mem hvrem]
          omega
        obtain ⟨ord2, hord2⟩ := ih (rem.erase v) hlen2
        refine ⟨v :: ord2, ?_⟩
        simp only [kahnAux]
        rw [if_neg hemp, hmin]
        simp [hord2]

lemma compile_head (ids : List String) (edges : List (String × String))
    (v : String) (rest : List String) (h : compile ids edges = some (v :: rest)) :
    ready ids edges v = true ∧ ∀ w ∈ ids, ready ids edges w = true → v ≤ w := by
  unfold compile at h
  cases ids with
  | nil => simp [kahnAux] at h
  | cons x xs =>
    simp only [List.length_cons, kahnAux] at h
    rw [if_neg (by simp)] at h
    cases hmin : minId ((x :: xs).filter (ready (x :: xs) edges)) with
    | none =>
      rw [hmin] at h
      simp at h
    | some w =>
      rw [hmin] at h
      obtain ⟨ord2, _, hord⟩ := Option.map_eq_some'.mp h
      injection hord with h1 _
      subst h1
      have hfil := minId_mem hmin
      constructor
      · exact (List.mem_filter.mp hfil).2
      · intro u hu hru
        exact minId_le hmin u (List.mem_filter.mpr ⟨hu, hru⟩)

lemma acyclic_of_rank (edges : List (String × String)) (rank : String → Nat)
    (h : ∀ p ∈ edges, rank p.1 < rank p.2) : Acyclic edges := by
  intro v hv
  have hmono : ∀ a b, edgeRel edges a b → rank a < rank b :=
    fun a b hab => h (a, b) hab
  have hlt : ∀ a b, Relation.TransGen (edgeRel edges) a b → rank a < rank b := by
    intro a b hab
    induction hab with
    | single h1 => exact hmono _ _ h1
    | tail _ h1 ih => exact lt_trans ih (hmono _ _ h1)
  exact lt_irrefl _ (hlt v v hv)

/-- Claim C8: for an acyclic edge set the modelled GraphCompiler succeeds
and yields a total order of the node ids that respects every edge, begins
with the least ready id (the ascending-id tie-break), and is invariant
under any reordering of the input node list (determinism). -/
theorem compile_topological_deterministic (ids : List String)
    (edges : List (String × String)) (hac : Acyclic edges) :
    ∃ order, compile ids edges = some order ∧ order.Perm ids ∧
      (∀ u v, (u, v) ∈ edges → u ∈ ids → v ∈ ids → [u, v].Sublist order) ∧
      (∀ v rest, order = v :: rest →
        ready ids edges v = true ∧ ∀ w ∈ ids, ready ids edges w = true → v ≤ w) ∧
      (∀ ids2, ids.Perm ids2 → compile ids2 edges = some order) := by
  obtain ⟨order, horder⟩ := kahnAux_total edges hac ids.length ids le_rfl
  refine ⟨order, horder, kahnAux_perm_output edges ids.length ids order horder,
    fun u v he hu hv => kahnAux_topo edges ids.length ids order horder u v he hu hv,
    fun v rest hvr => compile_head ids edges v rest (by rw [← hvr]; exact horder),
    fun ids2 hperm => ?_⟩
  unfold compile
  rw [← hperm.length_eq, kahnAux_congr_perm edges ids.length ids2 ids hperm.symm]
  exact horder

/-- Witness for the C8 theorem on the concrete linear graph u → l → o:
acyclicity is discharged by a rank function and the computed order is
u, l, o. -/
theorem compile_topological_deterministic_witness :
    (∃ order, compile idsW edgePairsW = some order ∧ order.Perm idsW ∧
      (∀ u v, (u, v) ∈ edgePairsW → u ∈ idsW → v ∈ idsW → [u, v].Sublist order) ∧
      (∀ v rest, order = v :: rest →
        ready idsW edgePairsW v = true ∧
          ∀ w ∈ idsW, ready idsW edgePairsW w = true → v ≤ w) ∧
      (∀ ids2, idsW.Perm ids2 → compile ids2 edgePairsW = some order)) ∧
    compile idsW edgePairsW = some ["u", "l", "o"] :=
  ⟨compile_topological_deterministic idsW edgePairsW
      (acyclic_of_rank edgePairsW rankW (by decide)), rfl⟩

lemma map_serializeNode_eq_self (nodes : List FlowNode)
    (hcons : ∀ n ∈ nodes, n.data.type = n.type) :
    nodes.map serializeNode = nodes := by
  induction nodes with
  | nil => rfl
  | cons n ns ih =>
    simp only [List.map_cons]
    rw [serializeNode_eq_self n (hcons n (List.mem_cons_self n ns)),
      ih (fun m hm => hcons m (List.mem_cons_of_mem n hm))]

/-- Claim C7: for a workflow whose nodes store consistent kind fields (as
every node built by createNode does), serializing via a successful save
and reconstructing for editing returns exactly the original node list and
edge list — same ids, kinds, positions, configuration data and edge
endpoints — so re-validating gives the same result and the modelled
compiler gives the same order. -/
theorem roundTrip_preserves_workflow (name desc : String) (nodes : List FlowNode)
    (edges : List FlowEdge) (wf : WorkflowData)
    (hcons : ∀ n ∈ nodes, n.data.type = n.type)
    (hsave : handleSaveWorkflow name desc nodes edges = .saved wf) :
    reconstructNodes wf = nodes ∧ reconstructEdges wf = edges ∧
    (reconstructNodes wf).map FlowNode.id = nodes.map FlowNode.id ∧
    (reconstructNodes wf).map kindOf = nodes.map kindOf ∧
    (reconstructNodes wf).map FlowNode.position = nodes.map FlowNode.position ∧
    (reconstructNodes wf).map FlowNode.data = nodes.map FlowNode.data ∧
    handleSaveWorkflow name desc (reconstructNodes wf) (reconstructEdges wf)
      = handleSaveWorkflow name desc nodes edges ∧
    compileWorkflow (reconstructNodes wf) (reconstructEdges wf)
      = compileWorkflow nodes edges := by
  have hwf : serializeWorkflow name desc nodes edges = wf := by
    unfold handleSaveWorkflow at hsave
    split at hsave
    · simp at hsave
    · split at hsave
      · simp at hsave
      · simpa using hsave
  have hnodes : reconstructNodes wf = nodes := by
    rw [← hwf]
    simp only [reconstructNodes, serializeWorkflow]
    exact map_serializeNode_eq_self nodes hcons
  have hedges : reconstructEdges wf = edges := by
    rw [← hwf]
    rfl
  exact ⟨hnodes, hedges, by rw [hnodes], by rw [hnodes], by rw [hnodes], by rw [hnodes],
    by rw [hnodes, hedges], by rw [hnodes, hedges]⟩

/-- Witness for the C7 theorem at the concrete linear workflow. -/
theorem roundTrip_preserves_workflow_witness :
    reconstructNodes (serializeWorkflow "w" "" nodesULO edgesLin) = nodesULO ∧
    compileWorkflow (reconstructNodes (serializeWorkflow "w" "" nodesULO edgesLin))
        (reconstructEdges (serializeWorkflow "w" "" nodesULO edgesLin))
      = compileWorkflow nodesULO edgesLin := by
  have h := roundTrip_preserves_workflow "w" "" nodesULO edgesLin
    (serializeWorkflow "w" "" nodesULO edgesLin) (by decide) rfl
  exact ⟨h.1, h.2.2.2.2.2.2.2⟩
